import Mathlib

/-!
# Verification of the baseline JPEG encoder and base64 transport coding

Shallow embedding of `metrics-sdk/src/main/cpp/imaging/stb_image_write.h`
(the minimal stb JPEG writer) and of the base64 encode/decode pair in
`metrics-sdk/src/main/cpp/imaging/image_processor.cpp`, together with
theorems settling the specification's claims about them.

Modelling conventions:
* C `int` arithmetic that stays small is modelled by `Nat`/`Int`; the
  32-bit bit buffer of the bit writer is kept reduced modulo `2 ^ 32`.
* `val & ((1 << k) - 1)` on a two's-complement `int` is modelled by
  `Int.emod _ (2 ^ k)`, whose result is the same nonnegative bit pattern.
* `float` samples and DCT coefficients are modelled by exact rationals;
  none of the proved claims depends on rounding of the transform itself.
* The output sink callback is modelled by accumulating the delivered
  bytes in a `List Nat`.
-/

/-- `stbiw__jpg_ZigZag`: the zigzag permutation table. -/
def stbiw__jpg_ZigZag : List Nat :=
  [0,1,5,6,14,15,27,28,2,4,7,13,16,26,29,42,3,8,12,17,25,30,41,43,9,11,18,
   24,31,40,44,53,10,19,23,32,39,45,52,54,20,22,33,38,46,51,55,60,21,34,37,47,50,56,59,61,35,36,48,49,57,58,62,63]

/-- State threaded through `stbiw__jpg_writeBits`: `buf`/`cnt` mirror
`bitBuf`/`bitCnt`, and `out` is the byte sequence delivered to the sink
so far. -/
structure BitW where
  buf : Nat
  cnt : Nat
  out : List Nat
deriving Repr, DecidableEq

/-- The `while (bitCnt >= 8)` flush loop of `stbiw__jpg_writeBits`:
extract the top byte (bits 23..16), append it to the output, and when it
equals `0xFF` append an immediate `0x00` stuff byte. -/
def flushLoop (cnt buf : Nat) (out : List Nat) : BitW :=
  if h : 8 ≤ cnt then
    let c := (buf >>> 16) &&& 255
    flushLoop (cnt - 8) ((buf <<< 8) % 2 ^ 32) (out ++ c :: (if c = 255 then [0] else []))
  else ⟨buf, cnt, out⟩
termination_by cnt
decreasing_by omega

/-- `stbiw__jpg_writeBits`: OR `len` bits of `code` below the pending
bits of the 24-bit window, then flush whole bytes. -/
def stbiw__jpg_writeBits (s : BitW) (code len : Nat) : BitW :=
  let cnt := s.cnt + len
  let buf := (s.buf ||| (code <<< (24 - cnt))) % 2 ^ 32
  flushLoop cnt buf s.out

/-- The `while (tmp1 >>= 1) ++bits[1]` loop of `stbiw__jpg_calcBits`,
with `s` the running value of `bits[1]`. -/
def sizeLoop (t s : Nat) : Nat :=
  if h : t >>> 1 = 0 then s else sizeLoop (t >>> 1) (s + 1)
termination_by t
decreasing_by
  have ht : t >>> 1 = t / 2 := Nat.shiftRight_one t
  omega

/-- `stbiw__jpg_calcBits`: the (magnitude bits, size) pair of a
coefficient; `val & ((1 << size) - 1)` becomes `Int.emod _ (2 ^ size)`. -/
def stbiw__jpg_calcBits (v : Int) : Nat × Nat :=
  let size := sizeLoop v.natAbs 1
  (((if v < 0 then v - 1 else v) % (2 : Int) ^ size).toNat, size)

/-- One `stbiw__jpg_writeBits` call made by `stbiw__jpg_processDU`,
recorded symbolically: a DC-table code, an AC-table code, or raw
magnitude bits. -/
inductive JTok where
  | dc (sym : Nat)
  | ac (sym : Nat)
  | mag (bits len : Nat)
deriving Repr, DecidableEq

/-- The countdown `for (; (end0pos>0)&&(DU[end0pos]==0); --end0pos);`:
the last position `≤ n` holding a nonzero coefficient, or `0`. -/
def end0pos (du : Nat → Int) : Nat → Nat
  | 0 => 0
  | n + 1 => if du (n + 1) = 0 then end0pos du n else n + 1

/-- The inner `for (; DU[i]==0 && i<=end0pos; ++i);` zero-skipping loop
of the AC scan. -/
def skipZeros (du : Nat → Int) (e i : Nat) : Nat :=
  if h : du i = 0 ∧ i ≤ e then skipZeros du e (i + 1) else i
termination_by e + 1 - i
decreasing_by omega

/-- The AC run-length loop of `stbiw__jpg_processDU` (the
`for (i=1; i<=end0pos; ++i)` loop), starting at position `i`, where `e`
is the last nonzero AC position. -/
def acLoop (du : Nat → Int) (e i : Nat) : List JTok :=
  if h : i ≤ e then
    let j := skipZeros du e i
    let run := j - i
    let b := stbiw__jpg_calcBits (du j)
    List.replicate (run >>> 4) (JTok.ac 0xF0) ++
      JTok.ac (((run &&& 15) <<< 4) + b.2) :: JTok.mag b.1 b.2 ::
      acLoop du e (j + 1)
  else []
termination_by e + 1 - i
decreasing_by
  have key : ∀ n i0, e + 1 - i0 ≤ n → i0 ≤ skipZeros du e i0 := by
    intro n
    induction n with
    | zero =>
      intro i0 hf
      rw [skipZeros]
      split <;> omega
    | succ m ih =>
      intro i0 hf
      rw [skipZeros]
      split
      · exact Nat.le_trans (Nat.le_succ i0) (ih (i0 + 1) (by omega))
      · exact Nat.le_refl i0
  have := key (e + 1 - i) i (Nat.le_refl _)
  omega

/-- The AC part of `stbiw__jpg_processDU` (scan of positions 1..63):
single EOB when no AC coefficient is nonzero, otherwise the run-length
loop followed by EOB unless position 63 is nonzero. -/
def acTokens (du : Nat → Int) : List JTok :=
  let e := end0pos du 63
  if e = 0 then [JTok.ac 0]
  else acLoop du e 1 ++ (if e ≠ 63 then [JTok.ac 0] else [])

/-- The differential-DC part of `stbiw__jpg_processDU`. -/
def dcTokens (du0 DC : Int) : List JTok :=
  let diff := du0 - DC
  if diff = 0 then [JTok.dc 0]
  else [JTok.dc (stbiw__jpg_calcBits diff).2,
        JTok.mag (stbiw__jpg_calcBits diff).1 (stbiw__jpg_calcBits diff).2]

/-- The entropy-coding stage of `stbiw__jpg_processDU` on the quantized,
zigzag-reordered block `du`: the emitted token stream and the returned
DC predictor `DU[0]`. -/
def processDUTokens (du : Nat → Int) (DC : Int) : List JTok × Int :=
  (dcTokens (du 0) DC ++ acTokens du, du 0)

/-- Modelled from the claim's words, as the refinement reference for the
AC scan: walk the 63 AC coefficients with a running zero count; a
nonzero value `v` after `run` zeros yields `run / 16` ZRL codes, the
`(run mod 16, size)` code and the magnitude bits; a nonempty trailing
zero run yields a single EOB. -/
def acSpecGo : List Int → Nat → List JTok
  | [], run => if run = 0 then [] else [JTok.ac 0]
  | v :: rest, run =>
    if v = 0 then acSpecGo rest (run + 1)
    else List.replicate (run / 16) (JTok.ac 0xF0) ++
      JTok.ac ((run % 16) * 16 + (stbiw__jpg_calcBits v).2) ::
      JTok.mag (stbiw__jpg_calcBits v).1 (stbiw__jpg_calcBits v).2 ::
      acSpecGo rest 0

/-- The coefficients of `du` at positions `i..63`, as a list (so
`acSuffix du 1` is the 63 AC coefficients in zigzag order). -/
def acSuffix (du : Nat → Int) (i : Nat) : List Int :=
  (List.range' i (64 - i)).map du

/-- `stbiw__jpg_std_dc_luminance_nrcodes` (17 entries, index 0 unused). -/
def std_dc_luminance_nrcodes : List Nat := [0,0,1,5,1,1,1,1,1,1,0,0,0,0,0,0,0]

/-- `stbiw__jpg_std_dc_luminance_values`. -/
def std_dc_luminance_values : List Nat := [0,1,2,3,4,5,6,7,8,9,10,11]

/-- `stbiw__jpg_std_ac_luminance_nrcodes`. -/
def std_ac_luminance_nrcodes : List Nat := [0,0,2,1,3,3,2,4,3,5,5,4,4,0,0,1,0x7d]

/-- `stbiw__jpg_std_ac_luminance_values`. -/
def std_ac_luminance_values : List Nat :=
  [0x01,0x02,0x03,0x00,0x04,0x11,0x05,0x12,0x21,0x31,0x41,0x06,0x13,0x51,0x61,0x07,0x22,0x71,0x14,0x32,0x81,0x91,0xa1,0x08,
   0x23,0x42,0xb1,0xc1,0x15,0x52,0xd1,0xf0,0x24,0x33,0x62,0x72,0x82,0x09,0x0a,0x16,0x17,0x18,0x19,0x1a,0x25,0x26,0x27,0x28,
   0x29,0x2a,0x34,0x35,0x36,0x37,0x38,0x39,0x3a,0x43,0x44,0x45,0x46,0x47,0x48,0x49,0x4a,0x53,0x54,0x55,0x56,0x57,0x58,0x59,
   0x5a,0x63,0x64,0x65,0x66,0x67,0x68,0x69,0x6a,0x73,0x74,0x75,0x76,0x77,0x78,0x79,0x7a,0x83,0x84,0x85,0x86,0x87,0x88,0x89,
   0x8a,0x92,0x93,0x94,0x95,0x96,0x97,0x98,0x99,0x9a,0xa2,0xa3,0xa4,0xa5,0xa6,0xa7,0xa8,0xa9,0xaa,0xb2,0xb3,0xb4,0xb5,0xb6,
   0xb7,0xb8,0xb9,0xba,0xc2,0xc3,0xc4,0xc5,0xc6,0xc7,0xc8,0xc9,0xca,0xd2,0xd3,0xd4,0xd5,0xd6,0xd7,0xd8,0xd9,0xda,0xe1,0xe2,
   0xe3,0xe4,0xe5,0xe6,0xe7,0xe8,0xe9,0xea,0xf1,0xf2,0xf3,0xf4,0xf5,0xf6,0xf7,0xf8,0xf9,0xfa]

/-- `stbiw__jpg_std_dc_chrominance_nrcodes`. -/
def std_dc_chrominance_nrcodes : List Nat := [0,0,3,1,1,1,1,1,1,1,1,1,0,0,0,0,0]

/-- `stbiw__jpg_std_dc_chrominance_values`. -/
def std_dc_chrominance_values : List Nat := [0,1,2,3,4,5,6,7,8,9,10,11]

/-- `stbiw__jpg_std_ac_chrominance_nrcodes`. -/
def std_ac_chrominance_nrcodes : List Nat := [0,0,2,1,2,4,4,3,4,7,5,4,4,0,1,2,0x77]

/-- `stbiw__jpg_std_ac_chrominance_values`. -/
def std_ac_chrominance_values : List Nat :=
  [0x00,0x01,0x02,0x03,0x11,0x04,0x05,0x21,0x31,0x06,0x12,0x41,0x51,0x07,0x61,0x71,0x13,0x22,0x32,0x81,0x08,0x14,0x42,0x91,
   0xa1,0xb1,0xc1,0x09,0x23,0x33,0x52,0xf0,0x15,0x62,0x72,0xd1,0x0a,0x16,0x24,0x34,0xe1,0x25,0xf1,0x17,0x18,0x19,0x1a,0x26,
   0x27,0x28,0x29,0x2a,0x35,0x36,0x37,0x38,0x39,0x3a,0x43,0x44,0x45,0x46,0x47,0x48,0x49,0x4a,0x53,0x54,0x55,0x56,0x57,0x58,
   0x59,0x5a,0x63,0x64,0x65,0x66,0x67,0x68,0x69,0x6a,0x73,0x74,0x75,0x76,0x77,0x78,0x79,0x7a,0x82,0x83,0x84,0x85,0x86,0x87,
   0x88,0x89,0x8a,0x92,0x93,0x94,0x95,0x96,0x97,0x98,0x99,0x9a,0xa2,0xa3,0xa4,0xa5,0xa6,0xa7,0xa8,0xa9,0xaa,0xb2,0xb3,0xb4,
   0xb5,0xb6,0xb7,0xb8,0xb9,0xba,0xc2,0xc3,0xc4,0xc5,0xc6,0xc7,0xc8,0xc9,0xca,0xd2,0xd3,0xd4,0xd5,0xd6,0xd7,0xd8,0xd9,0xda,
   0xe2,0xe3,0xe4,0xe5,0xe6,0xe7,0xe8,0xe9,0xea,0xf2,0xf3,0xf4,0xf5,0xf6,0xf7,0xf8,0xf9,0xfa]

/-- The assignment trace of `stbiw__jpg_buildHuffmanTable`: walking bit
lengths `j = 1..16`, each of `nrcodes[j]` symbols taken in value order
receives the next consecutive integer `code` and bit length `j`; the
running code counter is doubled (`code *= 2`) after each length.
Entries are `(symbol, code, bit length)` in assignment order. -/
def buildAssignList (nrcodes vals : List Nat) : List (Nat × Nat × Nat) :=
  ((List.range' 1 16).foldl
    (fun (acc : List (Nat × Nat × Nat) × Nat × Nat) j =>
      let n := nrcodes.getD j 0
      (acc.1 ++ (List.range n).map (fun t => (vals.getD (acc.2.2 + t) 0, acc.2.1 + t, j)),
       (acc.2.1 + n) * 2, acc.2.2 + n))
    ([], 0, 0)).1

/-- `stbiw__jpg_buildHuffmanTable`: the 256-entry `(code, length)` table,
obtained by writing the assignment trace into an all-zero table. -/
def stbiw__jpg_buildHuffmanTable (nrcodes vals : List Nat) : List (Nat × Nat) :=
  (buildAssignList nrcodes vals).foldl
    (fun t scl => t.set scl.1 (scl.2.1, scl.2.2))
    (List.replicate 256 (0, 0))

/-- `YDC_HT` as built in `stbi_write_jpg_to_func`. -/
def YDC_HT : List (Nat × Nat) :=
  stbiw__jpg_buildHuffmanTable std_dc_luminance_nrcodes std_dc_luminance_values

/-- `YAC_HT` as built in `stbi_write_jpg_to_func`. -/
def YAC_HT : List (Nat × Nat) :=
  stbiw__jpg_buildHuffmanTable std_ac_luminance_nrcodes std_ac_luminance_values

/-- `UDC_HT` as built in `stbi_write_jpg_to_func`. -/
def UDC_HT : List (Nat × Nat) :=
  stbiw__jpg_buildHuffmanTable std_dc_chrominance_nrcodes std_dc_chrominance_values

/-- `UAC_HT` as built in `stbi_write_jpg_to_func`. -/
def UAC_HT : List (Nat × Nat) :=
  stbiw__jpg_buildHuffmanTable std_ac_chrominance_nrcodes std_ac_chrominance_values

/-- The luma quantization base table `YQT`. -/
def YQT : List Nat :=
  [16,11,10,16,24,40,51,61,12,12,14,19,26,58,60,55,14,13,16,24,40,57,69,56,14,17,22,29,51,87,80,62,
   18,22,37,56,68,109,103,77,24,35,55,64,81,104,113,92,49,64,78,87,103,121,120,101,72,92,95,98,112,100,103,99]

/-- The chroma quantization base table `UVQT`. -/
def UVQT : List Nat :=
  [17,18,24,47,99,99,99,99,18,21,26,66,99,99,99,99,24,26,56,99,99,99,99,99,47,66,99,99,99,99,99,99,
   99,99,99,99,99,99,99,99,99,99,99,99,99,99,99,99,99,99,99,99,99,99,99,99,99,99,99,99,99,99,99,99]

/-- The AAN scale factors `aasf`, as exact rationals. -/
def aasf : List ℚ :=
  [1 * 2.828427125, 1.387039845 * 2.828427125, 1.306562965 * 2.828427125, 1.175875602 * 2.828427125,
   1 * 2.828427125, 0.785694958 * 2.828427125, 0.541196100 * 2.828427125, 0.275899379 * 2.828427125]

/-- `quality = quality ? quality : 90`. -/
def quality1 (q : Int) : Int := if q = 0 then 90 else q

/-- `subsample = quality <= 90 ? 1 : 0`, evaluated before the range
clamp (but after the zero-quality default). -/
def subsampleOf (q : Int) : Bool := quality1 q ≤ 90

/-- `quality = quality < 1 ? 1 : quality > 100 ? 100 : quality`. -/
def quality2 (q : Int) : Int :=
  let q1 := quality1 q
  if q1 < 1 then 1 else if q1 > 100 then 100 else q1

/-- `quality = quality < 50 ? 5000 / quality : 200 - quality * 2`: the
scale factor that multiplies the base tables. -/
def jscale (q : Int) : Int :=
  let q2 := quality2 q
  if q2 < 50 then 5000 / q2 else 200 - q2 * 2

/-- `yti = (YQT[i]*quality+50)/100` clamped to `[1,255]`: the luma
quantization divisor at (row-major) position `i`. -/
def yQuantAt (q : Int) (i : Nat) : Int :=
  let v := ((YQT.getD i 0 : Int) * jscale q + 50) / 100
  if v < 1 then 1 else if v > 255 then 255 else v

/-- `uvti = (UVQT[i]*quality+50)/100` clamped to `[1,255]`: the chroma
quantization divisor at (row-major) position `i`. -/
def uvQuantAt (q : Int) (i : Nat) : Int :=
  let v := ((UVQT.getD i 0 : Int) * jscale q + 50) / 100
  if v < 1 then 1 else if v > 255 then 255 else v

/-- `fdtbl_Y`: reciprocal divisor folded with the AAN normalization,
stored at the zigzag position. -/
def fdtblY (q : Int) : List ℚ :=
  (List.range 64).foldl
    (fun l i => l.set (stbiw__jpg_ZigZag.getD i 0)
      (1 / ((yQuantAt q i : ℚ) * aasf.getD (i &&& 7) 0 * aasf.getD (i >>> 3) 0)))
    (List.replicate 64 0)

/-- `fdtbl_UV`: chroma counterpart of `fdtblY`. -/
def fdtblUV (q : Int) : List ℚ :=
  (List.range 64).foldl
    (fun l i => l.set (stbiw__jpg_ZigZag.getD i 0)
      (1 / ((uvQuantAt q i : ℚ) * aasf.getD (i &&& 7) 0 * aasf.getD (i >>> 3) 0)))
    (List.replicate 64 0)

/-- `stbiw__jpg_DCT`: one 8-point 1-D butterfly pass, over exact
rationals in place of `float`, returning the transformed
`(d0,...,d7)`. -/
def stbiw__jpg_DCT (d0 d1 d2 d3 d4 d5 d6 d7 : ℚ) : ℚ × ℚ × ℚ × ℚ × ℚ × ℚ × ℚ × ℚ :=
  let tmp0 := d0 + d7
  let tmp7 := d0 - d7
  let tmp1 := d1 + d6
  let tmp6 := d1 - d6
  let tmp2 := d2 + d5
  let tmp5 := d2 - d5
  let tmp3 := d3 + d4
  let tmp4 := d3 - d4
  let tmp10 := tmp0 + tmp3
  let tmp13 := tmp0 - tmp3
  let tmp11 := tmp1 + tmp2
  let tmp12 := tmp1 - tmp2
  let e0 := tmp10 + tmp11
  let e4 := tmp10 - tmp11
  let z1 := (tmp12 + tmp13) * 0.707106781
  let e2 := tmp13 + z1
  let e6 := tmp13 - z1
  let t10 := tmp4 + tmp5
  let t11 := tmp5 + tmp6
  let t12 := tmp6 + tmp7
  let z5 := (t10 - t12) * 0.382683433
  let z2 := t10 * 0.541196100 + z5
  let z4 := t12 * 1.306562965 + z5
  let z3 := t11 * 0.707106781
  let z11 := tmp7 + z3
  let z13 := tmp7 - z3
  (e0, z11 + z4, e2, z13 - z2, e4, z13 + z2, e6, z11 - z4)

/-- Apply `stbiw__jpg_DCT` in place to the 8 entries of `l` at offsets
`off + k*str`, `k = 0..7`. -/
def dctAt (l : List ℚ) (off str : Nat) : List ℚ :=
  let g := fun k => l.getD (off + k * str) 0
  let r := stbiw__jpg_DCT (g 0) (g 1) (g 2) (g 3) (g 4) (g 5) (g 6) (g 7)
  (((((((l.set off r.1).set (off + str) r.2.1).set (off + 2 * str) r.2.2.1).set
    (off + 3 * str) r.2.2.2.1).set (off + 4 * str) r.2.2.2.2.1).set
    (off + 5 * str) r.2.2.2.2.2.1).set (off + 6 * str) r.2.2.2.2.2.2.1).set
    (off + 7 * str) r.2.2.2.2.2.2.2

/-- The transform/quantize front end of `stbiw__jpg_processDU` on the
buffer `CDU` viewed from `base` (the `CDU` pointer argument): 8 row
DCT passes at stride `du_stride`, then 8 column passes at the hardcoded
stride 8, then quantization by `fdtbl` with round-half-away-from-zero,
stored in zigzag order. Returns the 64-entry quantized block `DU`. -/
def quantizeDU (CDU : List ℚ) (base du_stride : Nat) (fdtbl : List ℚ) : List Int :=
  let a1 := (List.range 8).foldl (fun l n => dctAt l (base + n * du_stride) 1) CDU
  let a2 := (List.range 8).foldl (fun l n => dctAt l (base + n) 8) a1
  (List.range 64).foldl
    (fun d i =>
      let v := a2.getD (base + i) 0 * fdtbl.getD i 0
      d.set (stbiw__jpg_ZigZag.getD i 0) (if v < 0 then ⌈v - 0.5⌉ else ⌊v + 0.5⌋))
    (List.replicate 64 0)

/-- Feed one recorded `stbiw__jpg_writeBits` call through the bit
writer, looking Huffman codes up in the given DC/AC tables. -/
def emitTok (HTDC HTAC : List (Nat × Nat)) (s : BitW) (t : JTok) : BitW :=
  match t with
  | .dc sym => stbiw__jpg_writeBits s (HTDC.getD sym (0, 0)).1 (HTDC.getD sym (0, 0)).2
  | .ac sym => stbiw__jpg_writeBits s (HTAC.getD sym (0, 0)).1 (HTAC.getD sym (0, 0)).2
  | .mag bits len => stbiw__jpg_writeBits s bits len

/-- `stbiw__jpg_processDU`: transform, quantize, and entropy-code one
data unit, returning the new bit-writer state and `DU[0]`. -/
def stbiw__jpg_processDU (s : BitW) (CDU : List ℚ) (base du_stride : Nat)
    (fdtbl : List ℚ) (DC : Int) (HTDC HTAC : List (Nat × Nat)) : BitW × Int :=
  let DU := quantizeDU CDU base du_stride fdtbl
  let du := fun i => DU.getD i 0
  ((processDUTokens du DC).1.foldl (emitTok HTDC HTAC) s, (processDUTokens du DC).2)

/-- `head0`: SOI, JFIF APP0 and the DQT marker prologue. -/
def head0 : List Nat :=
  [0xFF,0xD8,0xFF,0xE0,0,0x10,0x4A,0x46,0x49,0x46,0,1,1,0,0,1,0,1,0,0,0xFF,0xDB,0,0x84,0]

/-- `head2`: the SOS header. -/
def head2 : List Nat := [0xFF,0xDA,0,0xC,3,1,0,2,0x11,3,0x11,0,0x3F,0]

/-- `head1`: the SOF0 frame header (with the DHT marker prologue); byte
11 is the luma sampling flag `subsample ? 0x22 : 0x11`. -/
def head1 (w h : Nat) (sub : Bool) : List Nat :=
  [0xFF,0xC0,0,0x11,8,(h >>> 8) &&& 255,h &&& 255,(w >>> 8) &&& 255,w &&& 255,
   3,1,if sub then 0x22 else 0x11,0,2,0x11,1,3,0x11,1,0xFF,0xC4,0x01,0xA2,0]

/-- All marker/header bytes emitted before the entropy-coded segment
(the block at lines 215-237 of the source). Note the DQT payloads are
the zigzag-reordered *base* tables `YQT`/`UVQT`, exactly as the source
emits them. -/
def jpgHeader (w h : Nat) (sub : Bool) : List Nat :=
  head0 ++
  (List.range 64).map (fun i => YQT.getD (stbiw__jpg_ZigZag.getD i 0) 0) ++
  [1] ++
  (List.range 64).map (fun i => UVQT.getD (stbiw__jpg_ZigZag.getD i 0) 0) ++
  head1 w h sub ++
  std_dc_luminance_nrcodes.drop 1 ++ std_dc_luminance_values ++
  [0x10] ++ std_ac_luminance_nrcodes.drop 1 ++ std_ac_luminance_values ++
  [1] ++ std_dc_chrominance_nrcodes.drop 1 ++ std_dc_chrominance_values ++
  [0x11] ++ std_ac_chrominance_nrcodes.drop 1 ++ std_ac_chrominance_values ++
  head2

/-- `row < height ? row : height - 1` (and the same for columns):
edge-replicating index clamp. -/
def clampIdx (v bound : Nat) : Nat := if v < bound then v else bound - 1

/-- `p = (clamped_row * width + clamped_col) * comp`: the byte offset of
the sample fetched during MCU color conversion. -/
def pixOffset (w h comp row col : Nat) : Nat :=
  (clampIdx row h * w + clampIdx col w) * comp

/-- `ofsG = comp > 2 ? 1 : 0`. -/
def ofsG (comp : Nat) : Nat := if 2 < comp then 1 else 0

/-- `ofsB = comp > 2 ? 2 : 0`. -/
def ofsB (comp : Nat) : Nat := if 2 < comp then 2 else 0

/-- The `Y`/`U`/`V` sample buffers of one `sz`×`sz` MCU at origin
`(x, y)`: row-major position `pos` holds the color-converted sample of
the edge-clamped pixel at `(x + pos % sz, y + pos / sz)`. -/
def mcuBufs (w h comp : Nat) (data : Nat → Nat) (sz x y : Nat) :
    List ℚ × List ℚ × List ℚ :=
  let sample := fun (pos : Nat) =>
    let p := pixOffset w h comp (y + pos / sz) (x + pos % sz)
    let r : ℚ := data p
    let g : ℚ := data (p + ofsG comp)
    let b : ℚ := data (p + ofsB comp)
    (0.299 * r + 0.587 * g + 0.114 * b - 128,
     -0.16874 * r - 0.33126 * g + 0.5 * b,
     0.5 * r - 0.41869 * g - 0.08131 * b)
  ((List.range (sz * sz)).map (fun pos => (sample pos).1),
   (List.range (sz * sz)).map (fun pos => (sample pos).2.1),
   (List.range (sz * sz)).map (fun pos => (sample pos).2.2))

/-- 2×2 averaging of a 16×16 chroma buffer into one 8×8 data unit
(`subU`/`subV`). -/
def subsampleBuf (ub : List ℚ) : List ℚ :=
  (List.range 64).map (fun k =>
    let j := (k / 8) * 2 * 16 + (k % 8) * 2
    (ub.getD j 0 + ub.getD (j + 1) 0 + ub.getD (j + 16) 0 + ub.getD (j + 17) 0) * 0.25)

/-- Bit-writer state plus the three per-channel DC predictors. -/
structure EncSt where
  bw : BitW
  dcy : Int
  dcu : Int
  dcv : Int

/-- One 16×16 MCU of the subsampled (4:2:0) path: 4 luma data units at
bases 0/8/128/136 with stride 16, then the 2×2-averaged Cb and Cr
units. -/
def mcu420 (w h comp : Nat) (data : Nat → Nat) (fy fuv : List ℚ)
    (st : EncSt) (x y : Nat) : EncSt :=
  let bufs := mcuBufs w h comp data 16 x y
  let r1 := stbiw__jpg_processDU st.bw bufs.1 0 16 fy st.dcy YDC_HT YAC_HT
  let r2 := stbiw__jpg_processDU r1.1 bufs.1 8 16 fy r1.2 YDC_HT YAC_HT
  let r3 := stbiw__jpg_processDU r2.1 bufs.1 128 16 fy r2.2 YDC_HT YAC_HT
  let r4 := stbiw__jpg_processDU r3.1 bufs.1 136 16 fy r3.2 YDC_HT YAC_HT
  let r5 := stbiw__jpg_processDU r4.1 (subsampleBuf bufs.2.1) 0 8 fuv st.dcu UDC_HT UAC_HT
  let r6 := stbiw__jpg_processDU r5.1 (subsampleBuf bufs.2.2) 0 8 fuv st.dcv UDC_HT UAC_HT
  ⟨r6.1, r4.2, r5.2, r6.2⟩

/-- One 8×8 MCU of the full-resolution (4:4:4) path: one data unit per
channel. -/
def mcu444 (w h comp : Nat) (data : Nat → Nat) (fy fuv : List ℚ)
    (st : EncSt) (x y : Nat) : EncSt :=
  let bufs := mcuBufs w h comp data 8 x y
  let r1 := stbiw__jpg_processDU st.bw bufs.1 0 8 fy st.dcy YDC_HT YAC_HT
  let r2 := stbiw__jpg_processDU r1.1 bufs.2.1 0 8 fuv st.dcu UDC_HT UAC_HT
  let r3 := stbiw__jpg_processDU r2.1 bufs.2.2 0 8 fuv st.dcv UDC_HT UAC_HT
  ⟨r3.1, r1.2, r2.2, r3.2⟩

/-- The origins visited by `for (v = 0; v < len; v += step)`. -/
def mcuOrigins (len step : Nat) : List Nat :=
  (List.range ((len + step - 1) / step)).map (· * step)

/-- The 4:2:0 entropy-coding body: raster order over 16×16 MCUs. -/
def body420 (w h comp : Nat) (data : Nat → Nat) (q : Int) (st0 : EncSt) : EncSt :=
  (mcuOrigins h 16).foldl
    (fun st y => (mcuOrigins w 16).foldl
      (fun st x => mcu420 w h comp data (fdtblY q) (fdtblUV q) st x y) st) st0

/-- The 4:4:4 entropy-coding body: raster order over 8×8 MCUs. -/
def body444 (w h comp : Nat) (data : Nat → Nat) (q : Int) (st0 : EncSt) : EncSt :=
  (mcuOrigins h 8).foldl
    (fun st y => (mcuOrigins w 8).foldl
      (fun st x => mcu444 w h comp data (fdtblY q) (fdtblUV q) st x y) st) st0

/-- The whole entropy-coded segment: DC predictors and bit buffer start
at zero, MCUs are encoded in raster order, and the `fillBits`
`(0x7F, 7)` write flushes the last partial byte. -/
def jpgBody (w h comp : Nat) (data : Nat → Nat) (q : Int) : BitW :=
  let st0 : EncSt := ⟨⟨0, 0, []⟩, 0, 0, 0⟩
  let stend := if subsampleOf q then body420 w h comp data q st0
               else body444 w h comp data q st0
  stbiw__jpg_writeBits stend.bw 0x7F 7

/-- `stbi_write_jpg_to_func`: `none` models the `return 0` on invalid
arguments (the `data` pointer, always present in this model, is the only
check not carried over); otherwise the complete byte sequence delivered
to the sink, ending with the EOI marker `0xFF 0xD9`. -/
def stbi_write_jpg_to_func (w h comp : Nat) (data : Nat → Nat) (q : Int) : Option (List Nat) :=
  if w = 0 ∨ h = 0 ∨ comp < 1 ∨ 4 < comp then none
  else some (jpgHeader w h (subsampleOf q) ++ (jpgBody w h comp data q).out ++ [0xFF, 0xD9])

/-- The `base64_chars` alphabet of `image_processor.cpp`. -/
def base64_chars : List Char :=
  "ABCDEFGHIJKLMNOPQRSTUVWXYZabcdefghijklmnopqrstuvwxyz0123456789+/".toList

/-- The index advance of one iteration of the `base64Encode` loop: each
of the three `i++` increments is guarded by `i < len`, so `i` never
exceeds `len`. -/
def b64adv (len i : Nat) : Nat :=
  let i1 := i + 1
  let i2 := if i1 < len then i1 + 1 else i1
  if i2 < len then i2 + 1 else i2

/-- The `while (i < len)` loop of `ImageProcessor::base64Encode`,
including the (unreachable) `'='` padding branches `i > len + 1` /
`i > len` exactly as written. -/
def b64encGo (data : List Nat) (i : Nat) : List Char :=
  if h : i < data.length then
    let len := data.length
    let i1 := i + 1
    let i2 := if i1 < len then i1 + 1 else i1
    let oa := data.getD i 0
    let ob := if i1 < len then data.getD i1 0 else 0
    let oc := if i2 < len then data.getD i2 0 else 0
    let triple := (oa <<< 16) + (ob <<< 8) + oc
    base64_chars.getD ((triple >>> 18) &&& 0x3F) 'A' ::
    base64_chars.getD ((triple >>> 12) &&& 0x3F) 'A' ::
    (if b64adv len i > len + 1 then '=' else base64_chars.getD ((triple >>> 6) &&& 0x3F) 'A') ::
    (if b64adv len i > len then '=' else base64_chars.getD (triple &&& 0x3F) 'A') ::
    b64encGo data (b64adv len i)
  else []
termination_by data.length - i
decreasing_by
  simp only [b64adv]
  split_ifs <;> omega

/-- `ImageProcessor::base64Encode`. -/
def base64Encode (data : List Nat) : List Char := b64encGo data 0

/-- `ImageProcessor::base64Decode`'s range-for over the input, with
accumulator `val` (a 32-bit `int`) and pending-bit count `valb`; an
alphabet miss (`decodeTable[c] == -1`) breaks out of the loop. -/
def b64decGo : List Char → Nat → Int → List Nat
  | [], _, _ => []
  | c :: rest, val, valb =>
    let k := base64_chars.indexOf c
    if k < 64 then
      let val2 := ((val <<< 6) + k) % 2 ^ 32
      let valb2 := valb + 6
      if 0 ≤ valb2 then
        ((val2 >>> valb2.toNat) &&& 255) :: b64decGo rest val2 (valb2 - 8)
      else b64decGo rest val2 valb2
    else []

/-- `ImageProcessor::base64Decode`. -/
def base64Decode (s : List Char) : List Nat := b64decGo s 0 (-8)

/-- Byte-stuffing invariant on an output byte list: every `0xFF` is
immediately followed by a `0x00`. -/
def stuffed (l : List Nat) : Prop := ∀ i, l.get? i = some 255 → l.get? (i + 1) = some 0

/-- Canonical adjacency of two Huffman assignments `(symbol, code, bit
length)`: bit lengths never decrease, and the next code is the previous
code plus one, shifted left once per bit-length step (so codes at one
bit length are consecutive increasing integers). -/
def canonStep (a b : Nat × Nat × Nat) : Prop :=
  a.2.2 ≤ b.2.2 ∧ b.2.1 = (a.2.1 + 1) * 2 ^ (b.2.2 - a.2.2)

instance : DecidableRel canonStep := fun a b =>
  inferInstanceAs (Decidable (a.2.2 ≤ b.2.2 ∧ b.2.1 = (a.2.1 + 1) * 2 ^ (b.2.2 - a.2.2)))

/-! ## Helper lemmas about the size loop and `stbiw__jpg_calcBits` -/

theorem sizeLoop_eq_log2 : ∀ t, 1 ≤ t → ∀ s, sizeLoop t s = s + Nat.log2 t := by
  intro t
  induction t using Nat.strong_induction_on with
  | _ t ih =>
    intro ht s
    rw [sizeLoop]
    have hsh : t >>> 1 = t / 2 := Nat.shiftRight_one t
    by_cases h2 : t / 2 = 0
    · rw [dif_pos (by omega)]
      have ht1 : t = 1 := by omega
      subst ht1
      have : Nat.log2 1 = 0 := by rw [Nat.log2]; simp
      omega
    · rw [dif_neg (by omega)]
      rw [hsh]
      have hlt : t / 2 < t := by omega
      have hge : 1 ≤ t / 2 := by omega
      rw [ih (t / 2) hlt hge (s + 1)]
      have hlog : Nat.log2 t = Nat.log2 (t / 2) + 1 := by
        rw [Nat.log2]
        simp only [ge_iff_le]
        rw [if_pos (by omega)]
      omega

theorem sizeLoop_ge_acc : ∀ t s, s ≤ sizeLoop t s := by
  intro t
  induction t using Nat.strong_induction_on with
  | _ t ih =>
    intro s
    rw [sizeLoop]
    have hsh : t >>> 1 = t / 2 := Nat.shiftRight_one t
    by_cases h2 : t >>> 1 = 0
    · rw [dif_pos h2]
    · rw [dif_neg h2]
      have := ih (t >>> 1) (by omega) (s + 1)
      omega

theorem calcBits_size_pos (v : Int) : 1 ≤ (stbiw__jpg_calcBits v).2 :=
  sizeLoop_ge_acc v.natAbs 1

/-- The size computed by `stbiw__jpg_calcBits` is the bit length of the
magnitude: `2^(size-1) ≤ |v| < 2^size` for nonzero `v`. -/
theorem calcBits_size_spec (v : Int) (hv : v ≠ 0) :
    2 ^ ((stbiw__jpg_calcBits v).2 - 1) ≤ v.natAbs ∧
    v.natAbs < 2 ^ (stbiw__jpg_calcBits v).2 := by
  have hna : 1 ≤ v.natAbs := by
    rcases Int.natAbs_eq v with h | h <;> omega
  have hsz : (stbiw__jpg_calcBits v).2 = 1 + Nat.log2 v.natAbs :=
    sizeLoop_eq_log2 v.natAbs hna 1
  rw [hsz]
  constructor
  · have : 1 + Nat.log2 v.natAbs - 1 = Nat.log2 v.natAbs := by omega
    rw [this]
    exact Nat.log2_self_le (by omega)
  · have : 1 + Nat.log2 v.natAbs = Nat.log2 v.natAbs + 1 := by omega
    rw [this]
    exact Nat.lt_log2_self

/-! ## Helper lemmas about the AC scan loops -/

theorem skipZeros_ge (du : Nat → Int) (e : Nat) :
    ∀ n i, e + 1 - i ≤ n → i ≤ skipZeros du e i := by
  intro n
  induction n with
  | zero =>
    intro i hfuel
    rw [skipZeros]
    split <;> omega
  | succ m ih =>
    intro i hfuel
    rw [skipZeros]
    split
    · exact Nat.le_trans (Nat.le_succ i) (ih (i + 1) (by omega))
    · exact Nat.le_refl i

theorem skipZeros_spec (du : Nat → Int) (e : Nat) (he : du e ≠ 0) :
    ∀ n i, e + 1 - i ≤ n → i ≤ e →
      i ≤ skipZeros du e i ∧ skipZeros du e i ≤ e ∧ du (skipZeros du e i) ≠ 0 ∧
      ∀ k, i ≤ k → k < skipZeros du e i → du k = 0 := by
  intro n
  induction n with
  | zero =>
    intro i hf hi
    omega
  | succ m ih =>
    intro i hf hi
    rw [skipZeros]
    split
    case isTrue hcond =>
      have hie : i < e := by
        rcases Nat.lt_or_ge i e with h | h
        · exact h
        · exfalso
          have : i = e := by omega
          rw [this] at hcond
          exact he hcond.1
      obtain ⟨ih1, ih2, ih3, ih4⟩ := ih (i + 1) (by omega) (by omega)
      refine ⟨by omega, ih2, ih3, ?_⟩
      intro k hk1 hk2
      rcases Nat.eq_or_lt_of_le hk1 with h | h
      · rw [← h]; exact hcond.1
      · exact ih4 k h hk2
    case isFalse hcond =>
      refine ⟨Nat.le_refl i, hi, ?_, ?_⟩
      · intro h0
        exact hcond ⟨h0, hi⟩
      · intro k hk1 hk2
        omega

theorem end0pos_le (du : Nat → Int) (n : Nat) : end0pos du n ≤ n := by
  induction n with
  | zero => simp [end0pos]
  | succ m ih =>
    rw [end0pos]
    split
    · omega
    · omega

theorem end0pos_zeros_after (du : Nat → Int) (n : Nat) :
    ∀ j, end0pos du n < j → j ≤ n → du j = 0 := by
  induction n with
  | zero =>
    intro j h1 h2
    omega
  | succ m ih =>
    intro j h1 h2
    rw [end0pos] at h1
    by_cases hd : du (m + 1) = 0
    · rw [if_pos hd] at h1
      rcases Nat.eq_or_lt_of_le h2 with h | h
      · rw [h]; exact hd
      · exact ih j h1 (by omega)
    · rw [if_neg hd] at h1
      omega

theorem end0pos_nonzero (du : Nat → Int) (n : Nat) (h : end0pos du n ≠ 0) :
    du (end0pos du n) ≠ 0 := by
  induction n with
  | zero => simp [end0pos] at h
  | succ m ih =>
    rw [end0pos] at h ⊢
    by_cases hd : du (m + 1) = 0
    · rw [if_pos hd] at h ⊢
      exact ih h
    · rw [if_neg hd]
      exact hd

theorem end0pos_eq_zero_of_allzero (du : Nat → Int) (n : Nat)
    (h : ∀ j, 1 ≤ j → j ≤ n → du j = 0) : end0pos du n = 0 := by
  induction n with
  | zero => rfl
  | succ m ih =>
    rw [end0pos]
    rw [if_pos (h (m + 1) (by omega) (by omega))]
    exact ih (fun j h1 h2 => h j h1 (by omega))

theorem acSuffix_cons (du : Nat → Int) (i : Nat) (hi : i ≤ 63) :
    acSuffix du i = du i :: acSuffix du (i + 1) := by
  unfold acSuffix
  have h64 : 64 - i = (63 - i) + 1 := by omega
  have h63 : 64 - (i + 1) = 63 - i := by omega
  rw [h64, h63, List.range'_succ, List.map_cons]

theorem acSuffix_after (du : Nat → Int) : acSuffix du 64 = [] := by
  simp [acSuffix]

theorem acSpecGo_zeros (du : Nat → Int) :
    ∀ n i, i + n = 64 → (∀ j, i ≤ j → j ≤ 63 → du j = 0) →
      ∀ r, acSpecGo (acSuffix du i) r = if r = 0 ∧ i = 64 then [] else [JTok.ac 0] := by
  intro n
  induction n with
  | zero =>
    intro i hi hz r
    have h64 : i = 64 := by omega
    subst h64
    rw [acSuffix_after]
    simp only [acSpecGo]
    by_cases hr : r = 0
    · simp [hr]
    · simp [hr]
  | succ m ih =>
    intro i hi hz r
    have hi63 : i ≤ 63 := by omega
    rw [acSuffix_cons du i hi63]
    simp only [acSpecGo]
    rw [if_pos (hz i (Nat.le_refl i) hi63)]
    rw [ih (i + 1) (by omega) (fun j h1 h2 => hz j (by omega) h2) (r + 1)]
    have h1 : ¬(r + 1 = 0 ∧ i + 1 = 64) := by omega
    have h2 : ¬(r = 0 ∧ i = 64) := by omega
    rw [if_neg h1, if_neg h2]

theorem acSpecGo_skip (du : Nat → Int) :
    ∀ d i r, (∀ k, i ≤ k → k < i + d → du k = 0) → i + d ≤ 64 →
      acSpecGo (acSuffix du i) r = acSpecGo (acSuffix du (i + d)) (r + d) := by
  intro d
  induction d with
  | zero =>
    intro i r _ _
    simp
  | succ m ih =>
    intro i r hz hle
    rw [acSuffix_cons du i (by omega)]
    simp only [acSpecGo]
    rw [if_pos (hz i (Nat.le_refl i) (by omega))]
    have := ih (i + 1) (r + 1) (fun k hk1 hk2 => hz k (by omega) (by omega)) (by omega)
    rw [this]
    have e1 : i + 1 + m = i + (m + 1) := by omega
    have e2 : r + 1 + m = r + (m + 1) := by omega
    rw [e1, e2]

theorem acLoop_eq_spec (du : Nat → Int) (e : Nat) (he : du e ≠ 0) (he63 : e ≤ 63)
    (hz : ∀ j, e < j → j ≤ 63 → du j = 0) :
    ∀ n i, e + 1 - i ≤ n → 1 ≤ i → i ≤ e →
      acLoop du e i ++ (if e ≠ 63 then [JTok.ac 0] else []) = acSpecGo (acSuffix du i) 0 := by
  intro n
  induction n with
  | zero =>
    intro i hf h1 h2
    omega
  | succ m ih =>
    intro i hf h1 h2
    rw [acLoop, dif_pos h2]
    obtain ⟨hj1, hj2, hj3, hj4⟩ := skipZeros_spec du e he (e + 1 - i) i (Nat.le_refl _) h2
    set j := skipZeros du e i with hjdef
    have hskip := acSpecGo_skip du (j - i) i 0 (fun k hk1 hk2 => hj4 k hk1 (by omega)) (by omega)
    have hij : i + (j - i) = j := by omega
    rw [hij] at hskip
    rw [hskip]
    rw [acSuffix_cons du j (by omega)]
    simp only [acSpecGo]
    rw [if_neg hj3]
    have hshr : (j - i) >>> 4 = (j - i) / 16 := by
      rw [Nat.shiftRight_eq_div_pow]
    have hand : (j - i) &&& 15 = (j - i) % 16 := Nat.and_pow_two_sub_one_eq_mod (j - i) 4
    have hshl : ((j - i) % 16) <<< 4 = ((j - i) % 16) * 16 := by
      rw [Nat.shiftLeft_eq]
    have hrun : 0 + (j - i) = j - i := by omega
    rw [hrun, hshr, hand, hshl]
    have htail : (acLoop du e (j + 1) ++ if e ≠ 63 then [JTok.ac 0] else []) =
        acSpecGo (acSuffix du (j + 1)) 0 := by
      by_cases hje : j = e
      · rw [hje]
        rw [acLoop, dif_neg (by omega)]
        rw [acSpecGo_zeros du (64 - (e + 1)) (e + 1) (by omega)
          (fun k hk1 hk2 => hz k (by omega) hk2) 0]
        by_cases hj63 : e = 63
        · rw [if_neg (show ¬e ≠ 63 by omega), if_pos (show (0 = 0 ∧ e + 1 = 64) by omega)]
          rfl
        · rw [if_pos (show e ≠ 63 by omega), if_neg (show ¬(0 = 0 ∧ e + 1 = 64) by omega)]
          rfl
      · exact ih (j + 1) (by omega) (by omega) (by omega)
    rw [List.append_assoc, List.cons_append, List.cons_append, htail]

theorem acLoop_no_eob (du : Nat → Int) (e : Nat) :
    ∀ n i, e + 1 - i ≤ n → JTok.ac 0 ∉ acLoop du e i := by
  intro n
  induction n with
  | zero =>
    intro i hf
    rw [acLoop]
    split
    · omega
    · exact List.not_mem_nil _
  | succ m ih =>
    intro i hf
    rw [acLoop]
    split
    case isTrue h2 =>
      have hge := skipZeros_ge du e (e + 1 - i) i (Nat.le_refl _)
      intro hmem
      rcases List.mem_append.mp hmem with hrep | htl
      · have := List.eq_of_mem_replicate hrep
        simp at this
      · rcases List.mem_cons.mp htl with hhead | htl2
        · have hsz := calcBits_size_pos (du (skipZeros du e i))
          simp only [JTok.ac.injEq] at hhead
          omega
        · rcases List.mem_cons.mp htl2 with hhead2 | htl3
          · simp at hhead2
          · exact ih (skipZeros du e i + 1) (by omega) htl3
    case isFalse =>
      exact List.not_mem_nil _

/-! ## Claim theorems C1 and C2: the entropy coder -/

/-- C1: For every quantized, zigzag-reordered block, the AC scan of
`stbiw__jpg_processDU` is exactly the run-length/Huffman coding stated
in the claim: the token stream equals the reference encoding `acSpecGo`
(each zero run of length `run` before a nonzero value yields `run / 16`
ZRL codes (symbol 0xF0), then the `(run mod 16, size)` code and the
magnitude bits; a nonempty all-zero tail yields exactly one EOB (symbol
0x00) and scanning stops; a nonzero coefficient at position 63 yields no
EOB); moreover a block with all 63 AC coefficients zero emits exactly
one EOB, and no EOB is emitted when position 63 is nonzero. -/
theorem c1_ac_runlength_encoding (du : Nat → Int) :
    acTokens du = acSpecGo (acSuffix du 1) 0 ∧
    ((∀ j, 1 ≤ j → j ≤ 63 → du j = 0) → acTokens du = [JTok.ac 0]) ∧
    (du 63 ≠ 0 → JTok.ac 0 ∉ acTokens du) := by
  refine ⟨?_, ?_, ?_⟩
  · by_cases he : end0pos du 63 = 0
    · simp only [acTokens]
      rw [if_pos he]
      rw [acSpecGo_zeros du 63 1 (by omega)
        (fun j h1 h2 => end0pos_zeros_after du 63 j (by omega) h2) 0]
      rw [if_neg (by omega)]
    · simp only [acTokens]
      rw [if_neg he]
      exact acLoop_eq_spec du (end0pos du 63) (end0pos_nonzero du 63 he)
        (end0pos_le du 63) (end0pos_zeros_after du 63)
        (end0pos du 63) 1 (by omega) (by omega) (by omega)
  · intro hall
    simp only [acTokens]
    rw [if_pos (end0pos_eq_zero_of_allzero du 63 hall)]
  · intro h63
    have he63 : end0pos du 63 = 63 := by
      have hstep : end0pos du 63 = if du 63 = 0 then end0pos du 62 else 63 := rfl
      rw [hstep, if_neg h63]
    simp only [acTokens]
    rw [if_neg (by omega)]
    rw [he63]
    rw [if_neg (by omega), List.append_nil]
    exact acLoop_no_eob du 63 63 1 (by omega)

/-- C2: the DC term is encoded differentially by
`stbiw__jpg_processDU`: `diff = DU[0] - DC`, the function returns
`DU[0]` as the updated predictor; `diff = 0` emits the DC code for
category 0 alone; otherwise the DC code for `size` is emitted followed
by `size` magnitude bits, where `size` is the bit length of `|diff|`
(`2^(size-1) ≤ |diff| < 2^size`) and the magnitude bits are `diff`
itself for positive `diff` and `(diff - 1)` masked to `size` bits
(i.e. `diff - 1 + 2^size`) for negative `diff`. -/
theorem c2_dc_differential_encoding (du : Nat → Int) (DC : Int) :
    (processDUTokens du DC).2 = du 0 ∧
    (du 0 - DC = 0 → (processDUTokens du DC).1 = JTok.dc 0 :: acTokens du) ∧
    (du 0 - DC ≠ 0 →
      (processDUTokens du DC).1 =
        JTok.dc (stbiw__jpg_calcBits (du 0 - DC)).2 ::
        JTok.mag (stbiw__jpg_calcBits (du 0 - DC)).1 (stbiw__jpg_calcBits (du 0 - DC)).2 ::
        acTokens du) ∧
    (∀ v : Int, v ≠ 0 →
      2 ^ ((stbiw__jpg_calcBits v).2 - 1) ≤ v.natAbs ∧
      v.natAbs < 2 ^ (stbiw__jpg_calcBits v).2 ∧
      ((stbiw__jpg_calcBits v).1 : Int) =
        (if v < 0 then v - 1 else v) % 2 ^ (stbiw__jpg_calcBits v).2 ∧
      (0 < v → ((stbiw__jpg_calcBits v).1 : Int) = v) ∧
      (v < 0 → ((stbiw__jpg_calcBits v).1 : Int) = v - 1 + 2 ^ (stbiw__jpg_calcBits v).2)) := by
  refine ⟨rfl, ?_, ?_, ?_⟩
  · intro h
    simp only [processDUTokens, dcTokens]
    rw [if_pos h]
    rfl
  · intro h
    simp only [processDUTokens, dcTokens]
    rw [if_neg h]
    rfl
  · intro v hv
    have hs := calcBits_size_spec v hv
    have hchar : ((stbiw__jpg_calcBits v).1 : Int) =
        (if v < 0 then v - 1 else v) % 2 ^ (stbiw__jpg_calcBits v).2 := by
      have h1 : (stbiw__jpg_calcBits v).1 =
          ((if v < 0 then v - 1 else v) % (2 : Int) ^ (stbiw__jpg_calcBits v).2).toNat := rfl
      rw [h1, Int.toNat_of_nonneg (Int.emod_nonneg _ (pow_ne_zero _ (by norm_num)))]
    have hcast : ((2 ^ (stbiw__jpg_calcBits v).2 : Nat) : Int) = (2 : Int) ^ (stbiw__jpg_calcBits v).2 := by
      push_cast
      rfl
    have hlt : (v.natAbs : Int) < (2 : Int) ^ (stbiw__jpg_calcBits v).2 := by
      rw [← hcast]
      exact_mod_cast hs.2
    refine ⟨hs.1, hs.2, hchar, ?_, ?_⟩
    · intro hv0
      rw [hchar, if_neg (by omega)]
      have hva : (v.natAbs : Int) = v := by omega
      exact Int.emod_eq_of_lt (by omega) (by linarith)
    · intro hv0
      rw [hchar, if_pos hv0]
      have hva : (v.natAbs : Int) = -v := by omega
      have e1 : v - 1 + 2 ^ (stbiw__jpg_calcBits v).2 * 1 = v - 1 + 2 ^ (stbiw__jpg_calcBits v).2 := by
        ring
      have e2 : (v - 1) % 2 ^ (stbiw__jpg_calcBits v).2 =
          (v - 1 + 2 ^ (stbiw__jpg_calcBits v).2) % 2 ^ (stbiw__jpg_calcBits v).2 := by
        rw [← e1, Int.add_mul_emod_self_left]
      rw [e2]
      exact Int.emod_eq_of_lt (by linarith) (by linarith)

/-! ## Claim theorem C3: the bit writer -/

theorem flushLoop_cnt_lt : ∀ cnt buf out, (flushLoop cnt buf out).cnt < 8 := by
  intro cnt
  induction cnt using Nat.strong_induction_on with
  | _ cnt ih =>
    intro buf out
    rw [flushLoop]
    split
    case isTrue h => exact ih (cnt - 8) (by omega) _ _
    case isFalse h => simpa using by omega

theorem stuffed_nil : stuffed [] := by
  intro i h
  simp [stuffed, List.get?_nil] at h

theorem stuffed_append_emit (l : List Nat) (c : Nat) (hs : stuffed l) :
    stuffed (l ++ c :: (if c = 255 then [0] else [])) := by
  intro i hi
  by_cases h1 : i < l.length
  · rw [List.get?_append h1] at hi
    have h2 := hs i hi
    have h3 : i + 1 < l.length := by
      by_contra hcon
      rw [List.get?_eq_none.mpr (by omega)] at h2
      exact Option.noConfusion h2
    rw [List.get?_append h3]
    exact h2
  · rw [List.get?_append_right (by omega)] at hi
    by_cases hc : c = 255
    · subst hc
      rw [if_pos rfl] at hi ⊢
      by_cases he : i = l.length
      · rw [List.get?_append_right (by omega)]
        have : i + 1 - l.length = 1 := by omega
        rw [this]
        rfl
      · exfalso
        rcases Nat.lt_or_ge (i - l.length) 2 with hlt | hge
        · have h2 : i - l.length = 1 := by omega
          rw [h2] at hi
          simp at hi
        · rw [List.get?_eq_none.mpr (by simp; omega)] at hi
          exact Option.noConfusion hi
    · exfalso
      rw [if_neg hc] at hi
      by_cases he : i = l.length
      · have h2 : i - l.length = 0 := by omega
        rw [h2] at hi
        simp at hi
        exact hc hi
      · rw [List.get?_eq_none.mpr (by simp; omega)] at hi
        exact Option.noConfusion hi

theorem flushLoop_stuffed : ∀ cnt buf out, stuffed out →
    stuffed (flushLoop cnt buf out).out ∧
    ∃ ap, (flushLoop cnt buf out).out = out ++ ap := by
  intro cnt
  induction cnt using Nat.strong_induction_on with
  | _ cnt ih =>
    intro buf out hs
    rw [flushLoop]
    split
    case isTrue h =>
      obtain ⟨h1, ap, h2⟩ := ih (cnt - 8) (by omega) ((buf <<< 8) % 2 ^ 32)
        (out ++ ((buf >>> 16) &&& 255) ::
          (if ((buf >>> 16) &&& 255) = 255 then [0] else []))
        (stuffed_append_emit out _ hs)
      refine ⟨h1, ((buf >>> 16) &&& 255) ::
        (if ((buf >>> 16) &&& 255) = 255 then [0] else []) ++ ap, ?_⟩
      rw [h2, List.append_assoc]
    case isFalse h =>
      exact ⟨hs, [], by simp⟩

/-- C3: a `stbiw__jpg_writeBits` call flushes while 8 or more bits are
pending, emitting the top byte and an immediate `0x00` stuff byte
whenever that byte is `0xFF`; hence it preserves the invariant that
every `0xFF` in the emitted entropy bytes is immediately followed by
`0x00`, only appends to the output, and leaves a pending-bit count
strictly below 8. -/
theorem c3_bitwriter_stuffing (s : BitW) (code len : Nat) (hs : stuffed s.out) :
    stuffed (stbiw__jpg_writeBits s code len).out ∧
    (stbiw__jpg_writeBits s code len).cnt < 8 ∧
    ∃ ap, (stbiw__jpg_writeBits s code len).out = s.out ++ ap := by
  obtain ⟨h1, h2⟩ := flushLoop_stuffed (s.cnt + len)
    ((s.buf ||| (code <<< (24 - (s.cnt + len)))) % 2 ^ 32) s.out hs
  exact ⟨h1, flushLoop_cnt_lt _ _ _, h2⟩

/-- C3 witness: the invariant theorem applied to the initial bit-writer
state and the `fillBits` write `(0x7F, 7)`. -/
theorem c3_witness :
    stuffed (stbiw__jpg_writeBits ⟨0, 0, []⟩ 0x7F 7).out ∧
    (stbiw__jpg_writeBits ⟨0, 0, []⟩ 0x7F 7).cnt < 8 ∧
    ∃ ap, (stbiw__jpg_writeBits ⟨0, 0, []⟩ 0x7F 7).out = [] ++ ap :=
  c3_bitwriter_stuffing ⟨0, 0, []⟩ 0x7F 7 stuffed_nil

/-! ## Claim theorem C4: canonical Huffman table construction -/

theorem chain'_of_zipAll {α : Type} {R : α → α → Prop} [DecidableRel R] :
    ∀ l : List α, ((l.zip l.tail).all fun p => decide (R p.1 p.2)) = true →
      List.Chain' R l := by
  intro l
  induction l with
  | nil => intro _; exact List.chain'_nil
  | cons a t ih =>
    cases t with
    | nil => intro _; simp
    | cons b t2 =>
      intro h
      rw [List.chain'_cons]
      have hz : ((a :: b :: t2).zip (a :: b :: t2).tail) = (a, b) :: ((b :: t2).zip t2) := rfl
      rw [hz, List.all_cons, Bool.and_eq_true] at h
      refine ⟨of_decide_eq_true h.1, ih ?_⟩
      exact h.2

set_option maxRecDepth 40000 in
/-- C4: each of the four standard Huffman tables is built canonically:
along the assignment trace (bit lengths walked 1..16, symbols in value
order), bit lengths never decrease and each next code is the previous
code plus one shifted left once per bit-length step — so codes of equal
bit length are consecutive increasing integers and code order follows
bit-length order; the doubling of the running counter after each length
is the `* 2 ^ (Δlength)` in `canonStep`. The four `all`-checks tie the
trace to the `(code, length)` tables the encoder actually reads. -/
theorem c4_huffman_canonical :
    List.Chain' canonStep (buildAssignList std_dc_luminance_nrcodes std_dc_luminance_values) ∧
    List.Chain' canonStep (buildAssignList std_ac_luminance_nrcodes std_ac_luminance_values) ∧
    List.Chain' canonStep (buildAssignList std_dc_chrominance_nrcodes std_dc_chrominance_values) ∧
    List.Chain' canonStep (buildAssignList std_ac_chrominance_nrcodes std_ac_chrominance_values) ∧
    ((buildAssignList std_dc_luminance_nrcodes std_dc_luminance_values).all
      (fun scl => YDC_HT.getD scl.1 (0, 0) == (scl.2.1, scl.2.2)) = true) ∧
    ((buildAssignList std_ac_luminance_nrcodes std_ac_luminance_values).all
      (fun scl => YAC_HT.getD scl.1 (0, 0) == (scl.2.1, scl.2.2)) = true) ∧
    ((buildAssignList std_dc_chrominance_nrcodes std_dc_chrominance_values).all
      (fun scl => UDC_HT.getD scl.1 (0, 0) == (scl.2.1, scl.2.2)) = true) ∧
    ((buildAssignList std_ac_chrominance_nrcodes std_ac_chrominance_values).all
      (fun scl => UAC_HT.getD scl.1 (0, 0) == (scl.2.1, scl.2.2)) = true) :=
  ⟨chain'_of_zipAll _ (by decide), chain'_of_zipAll _ (by decide),
   chain'_of_zipAll _ (by decide), chain'_of_zipAll _ (by decide),
   by decide, by decide, by decide, by decide⟩

/-! ## Claim theorems C5, C6: quantization scaling and subsampling -/

/-- C5: for quality in [1,100] the scale is `5000/quality` below 50 and
`200 - 2*quality` otherwise, each of the 64 luma and 64 chroma divisors
equals `clamp(round(b * scale / 100), 1, 255)` (with round half-up
realized as `(b * scale + 50) / 100` on nonnegative integers), and every
divisor lies in [1, 255]. -/
theorem c5_quant_divisors (q : Int) (i : Nat) (h1 : 1 ≤ q) (h2 : q ≤ 100) (hi : i < 64) :
    jscale q = (if q < 50 then 5000 / q else 200 - 2 * q) ∧
    yQuantAt q i =
      max 1 (min 255 (((YQT.getD i 0 : Int) * (if q < 50 then 5000 / q else 200 - 2 * q) + 50) / 100)) ∧
    uvQuantAt q i =
      max 1 (min 255 (((UVQT.getD i 0 : Int) * (if q < 50 then 5000 / q else 200 - 2 * q) + 50) / 100)) ∧
    1 ≤ yQuantAt q i ∧ yQuantAt q i ≤ 255 ∧ 1 ≤ uvQuantAt q i ∧ uvQuantAt q i ≤ 255 := by
  have hq1 : quality1 q = q := by
    unfold quality1
    rw [if_neg (by omega)]
  have hq2 : quality2 q = q := by
    unfold quality2
    rw [hq1, if_neg (by omega), if_neg (by omega)]
  have hj : jscale q = (if q < 50 then 5000 / q else 200 - 2 * q) := by
    simp only [jscale, hq2]
    split_ifs
    · rfl
    · ring
  have key : ∀ v : Int,
      (if v < 1 then (1 : Int) else if v > 255 then 255 else v) = max 1 (min 255 v) ∧
      1 ≤ (if v < 1 then (1 : Int) else if v > 255 then 255 else v) ∧
      (if v < 1 then (1 : Int) else if v > 255 then 255 else v) ≤ 255 := by
    intro v
    refine ⟨?_, ?_, ?_⟩ <;> split_ifs <;> omega
  refine ⟨hj, ?_, ?_, ?_, ?_, ?_, ?_⟩
  · simp only [yQuantAt, hj]
    exact (key _).1
  · simp only [uvQuantAt, hj]
    exact (key _).1
  · simp only [yQuantAt, hj]
    exact (key _).2.1
  · simp only [yQuantAt, hj]
    exact (key _).2.2
  · simp only [uvQuantAt, hj]
    exact (key _).2.1
  · simp only [uvQuantAt, hj]
    exact (key _).2.2

/-- C5 witness: the divisor bounds at quality 75, position 0. -/
theorem c5_witness :
    1 ≤ yQuantAt 75 0 ∧ yQuantAt 75 0 ≤ 255 ∧ 1 ≤ uvQuantAt 75 0 ∧ uvQuantAt 75 0 ≤ 255 :=
  ⟨(c5_quant_divisors 75 0 (by norm_num) (by norm_num) (by norm_num)).2.2.2.1,
   (c5_quant_divisors 75 0 (by norm_num) (by norm_num) (by norm_num)).2.2.2.2.1,
   (c5_quant_divisors 75 0 (by norm_num) (by norm_num) (by norm_num)).2.2.2.2.2.1,
   (c5_quant_divisors 75 0 (by norm_num) (by norm_num) (by norm_num)).2.2.2.2.2.2⟩

/-- C6: for quality in [1,100] the subsampling mode is chosen from
quality alone (quality ≤ 90 selects 4:2:0, otherwise 4:4:4), the SOF0
luma sampling byte (position 11 of `head1`) is `0x22` when subsampled
and `0x11` otherwise, and the entropy body runs the 16×16 4-luma MCU
path (`body420`) exactly when quality ≤ 90 and the 8×8 per-channel path
(`body444`) otherwise. -/
theorem c6_subsample_selection (q : Int) (h1 : 1 ≤ q) (h2 : q ≤ 100) :
    (subsampleOf q = true ↔ q ≤ 90) ∧
    (subsampleOf q = false ↔ 90 < q) ∧
    (∀ w h : Nat, (head1 w h (subsampleOf q)).getD 11 0 = if q ≤ 90 then 0x22 else 0x11) ∧
    (∀ w h comp data, jpgBody w h comp data q =
      if q ≤ 90 then stbiw__jpg_writeBits (body420 w h comp data q ⟨⟨0, 0, []⟩, 0, 0, 0⟩).bw 0x7F 7
      else stbiw__jpg_writeBits (body444 w h comp data q ⟨⟨0, 0, []⟩, 0, 0, 0⟩).bw 0x7F 7) := by
  have hs : subsampleOf q = decide (q ≤ 90) := by
    unfold subsampleOf quality1
    rw [if_neg (by omega)]
  refine ⟨?_, ?_, ?_, ?_⟩
  · rw [hs]
    simp
  · rw [hs]
    simp
  · intro w h
    rw [hs]
    by_cases h90 : q ≤ 90
    · simp [head1, h90]
    · simp [head1, h90]
  · intro w h comp data
    unfold jpgBody
    rw [hs]
    by_cases h90 : q ≤ 90
    · simp [h90]
    · simp [h90]

/-- C6 witness: at quality 75 the encoder subsamples and the SOF0 flag
byte is 0x22. -/
theorem c6_witness :
    subsampleOf 75 = true ∧ (head1 16 16 (subsampleOf 75)).getD 11 0 = 0x22 :=
  ⟨((c6_subsample_selection 75 (by norm_num) (by norm_num)).1).mpr (by norm_num),
   by simpa using (c6_subsample_selection 75 (by norm_num) (by norm_num)).2.2.1 16 16⟩

/-! ## Claim theorems C8, C9: edge clamping and quality clamping -/

/-- C8: every pixel byte offset computed during MCU color conversion is
edge-clamped, hence bounded by `(h-1)*w*comp + (w-1)*comp` for any row
and column index whatsoever (`0 ≤ p` holds by the `Nat` model). -/
theorem c8_pixOffset_bounded (w h comp row col : Nat) (hw : 1 ≤ w) (hh : 1 ≤ h) :
    pixOffset w h comp row col ≤ (h - 1) * w * comp + (w - 1) * comp := by
  unfold pixOffset clampIdx
  have hr : (if row < h then row else h - 1) ≤ h - 1 := by
    split <;> omega
  have hc : (if col < w then col else w - 1) ≤ w - 1 := by
    split <;> omega
  have hrw : (h - 1) * w * comp + (w - 1) * comp = ((h - 1) * w + (w - 1)) * comp := by
    ring
  rw [hrw]
  exact Nat.mul_le_mul_right comp
    (Nat.add_le_add (Nat.mul_le_mul_right w hr) hc)

/-- C8 witness: for a 1×1 image even the farthest block position (7,7)
clamps to offset 0. -/
theorem c8_witness : pixOffset 1 1 3 7 7 ≤ (1 - 1) * 1 * 3 + (1 - 1) * 3 :=
  c8_pixOffset_bounded 1 1 3 7 7 (by norm_num) (by norm_num)

/-- C9 counterexample: quality 0 is not "clamped to the nearest bound of
[1,100]" — the code defaults 0 to 90 (`quality = quality ? quality : 90`),
so its luma divisor at position 0 is 3, while the claimed clamped
quality 1 yields 255. -/
theorem c9_counterexample :
    yQuantAt 0 0 = 3 ∧ yQuantAt (max 1 (min 100 0)) 0 = 255 ∧
    ¬ yQuantAt 0 0 = yQuantAt (max 1 (min 100 0)) 0 := by
  refine ⟨by decide, by decide, by decide⟩

/-- C9 amended: for every quality outside [1,100] other than 0, the
encoder's subsampling decision and both quantization divisor tables
equal those of the quality clamped to the nearest bound of [1,100];
quality 0 instead behaves as the default quality 90. -/
theorem c9_amended_clamping (q : Int) (hq : q < 1 ∨ 100 < q) (h0 : q ≠ 0) :
    subsampleOf q = subsampleOf (max 1 (min 100 q)) ∧
    (∀ i, yQuantAt q i = yQuantAt (max 1 (min 100 q)) i) ∧
    (∀ i, uvQuantAt q i = uvQuantAt (max 1 (min 100 q)) i) := by
  have hq2 : quality2 q = quality2 (max 1 (min 100 q)) := by
    simp only [quality2, quality1]
    split_ifs <;> omega
  have hj : jscale q = jscale (max 1 (min 100 q)) := by
    unfold jscale
    rw [hq2]
  refine ⟨?_, ?_, ?_⟩
  · have hiff : (quality1 q ≤ 90) ↔ (quality1 (max 1 (min 100 q)) ≤ 90) := by
      simp only [quality1]
      split_ifs <;> omega
    unfold subsampleOf
    exact decide_eq_decide.mpr hiff
  · intro i
    unfold yQuantAt
    rw [hj]
  · intro i
    unfold uvQuantAt
    rw [hj]

/-- C9 witness: quality 101 behaves exactly as the clamped quality 100. -/
theorem c9_witness :
    subsampleOf 101 = subsampleOf (max 1 (min 100 101)) ∧
    (∀ i, yQuantAt 101 i = yQuantAt (max 1 (min 100 101)) i) ∧
    (∀ i, uvQuantAt 101 i = uvQuantAt (max 1 (min 100 101)) i) :=
  c9_amended_clamping 101 (Or.inr (by norm_num)) (by norm_num)

/-! ## Claim theorem C10: the base64 round trip -/

/-- C10: the base64 round trip fails on the one-byte input `[0x00]`:
the encoder's `'='` padding branches compare `i > len` after increments
that are all guarded by `i < len`, so they never fire; `[0]` encodes to
`"AAAA"` (no padding) and decodes back to `[0, 0, 0] ≠ [0]`. -/
theorem c10_base64_roundtrip_failure :
    base64Encode [0] = ['A', 'A', 'A', 'A'] ∧
    base64Decode (base64Encode [0]) = [0, 0, 0] ∧
    ¬ base64Decode (base64Encode [0]) = [0] ∧
    '=' ∉ base64Encode [0] := by
  have henc : base64Encode [0] = ['A', 'A', 'A', 'A'] := by
    simp [base64Encode, b64encGo, b64adv, base64_chars]
  refine ⟨henc, ?_, ?_, ?_⟩
  · rw [henc]
    decide
  · rw [henc]
    decide
  · rw [henc]
    decide

/-! ## Claim theorem C7: stream framing -/

/-- C7: for every valid input (width, height ≥ 1, channel count 1..4;
the `data` view always exists in this model) the encode succeeds, and
the complete byte sequence delivered to the sink starts with the SOI
marker `0xFF 0xD8` and ends with the EOI marker `0xFF 0xD9`, with the
entropy segment (whose last write is the `fillBits` flush, by the
definition of `jpgBody`) placed between header and EOI. -/
theorem c7_stream_markers (w h comp : Nat) (data : Nat → Nat) (q : Int)
    (hw : 1 ≤ w) (hh : 1 ≤ h) (hc1 : 1 ≤ comp) (hc2 : comp ≤ 4) :
    ∃ s, stbi_write_jpg_to_func w h comp data q = some s ∧
      s.take 2 = [0xFF, 0xD8] ∧
      s = jpgHeader w h (subsampleOf q) ++ (jpgBody w h comp data q).out ++ [0xFF, 0xD9] ∧
      [0xFF, 0xD9] <:+ s := by
  refine ⟨jpgHeader w h (subsampleOf q) ++ (jpgBody w h comp data q).out ++ [0xFF, 0xD9],
    ?_, ?_, rfl, ?_⟩
  · unfold stbi_write_jpg_to_func
    rw [if_neg (by omega)]
  · simp [jpgHeader, head0]
  · exact List.suffix_append _ _

/-- C7 witness: a 1×1 RGB image at quality 90 encodes to a stream
framed by SOI and EOI. -/
theorem c7_witness :
    ∃ s, stbi_write_jpg_to_func 1 1 3 (fun _ => 0) 90 = some s ∧
      s.take 2 = [0xFF, 0xD8] ∧
      s = jpgHeader 1 1 (subsampleOf 90) ++ (jpgBody 1 1 3 (fun _ => 0) 90).out ++ [0xFF, 0xD9] ∧
      [0xFF, 0xD9] <:+ s :=
  c7_stream_markers 1 1 3 (fun _ => 0) 90 (by norm_num) (by norm_num) (by norm_num) (by norm_num)

/-- C1 witness: the AC refinement theorem instantiated at a block with a
34-zero run followed by a single nonzero coefficient at position 35. -/
theorem c1_witness :
    acTokens (fun i => if i = 35 then (1 : Int) else 0) =
      acSpecGo (acSuffix (fun i => if i = 35 then (1 : Int) else 0) 1) 0 ∧
    ((∀ j, 1 ≤ j → j ≤ 63 → (fun i => if i = 35 then (1 : Int) else 0) j = 0) →
      acTokens (fun i => if i = 35 then (1 : Int) else 0) = [JTok.ac 0]) ∧
    ((fun i => if i = 35 then (1 : Int) else 0) 63 ≠ 0 →
      JTok.ac 0 ∉ acTokens (fun i => if i = 35 then (1 : Int) else 0)) :=
  c1_ac_runlength_encoding (fun i => if i = 35 then (1 : Int) else 0)

/-- C2 witness: the DC theorem instantiated at a block with `DU[0] = -3`
and predictor `2`. -/
theorem c2_witness :
    (processDUTokens (fun i => if i = 0 then (-3 : Int) else 0) 2).2 =
      (fun i => if i = 0 then (-3 : Int) else 0) 0 ∧
    ((fun i => if i = 0 then (-3 : Int) else 0) 0 - 2 = 0 →
      (processDUTokens (fun i => if i = 0 then (-3 : Int) else 0) 2).1 =
        JTok.dc 0 :: acTokens (fun i => if i = 0 then (-3 : Int) else 0)) ∧
    ((fun i => if i = 0 then (-3 : Int) else 0) 0 - 2 ≠ 0 →
      (processDUTokens (fun i => if i = 0 then (-3 : Int) else 0) 2).1 =
        JTok.dc (stbiw__jpg_calcBits ((fun i => if i = 0 then (-3 : Int) else 0) 0 - 2)).2 ::
        JTok.mag (stbiw__jpg_calcBits ((fun i => if i = 0 then (-3 : Int) else 0) 0 - 2)).1
          (stbiw__jpg_calcBits ((fun i => if i = 0 then (-3 : Int) else 0) 0 - 2)).2 ::
        acTokens (fun i => if i = 0 then (-3 : Int) else 0)) ∧
    (∀ v : Int, v ≠ 0 →
      2 ^ ((stbiw__jpg_calcBits v).2 - 1) ≤ v.natAbs ∧
      v.natAbs < 2 ^ (stbiw__jpg_calcBits v).2 ∧
      ((stbiw__jpg_calcBits v).1 : Int) =
        (if v < 0 then v - 1 else v) % 2 ^ (stbiw__jpg_calcBits v).2 ∧
      (0 < v → ((stbiw__jpg_calcBits v).1 : Int) = v) ∧
      (v < 0 → ((stbiw__jpg_calcBits v).1 : Int) = v - 1 + 2 ^ (stbiw__jpg_calcBits v).2)) :=
  c2_dc_differential_encoding (fun i => if i = 0 then (-3 : Int) else 0) 2
